import Mathlib

/-!
# Verification of the Spotispy in-memory session store (`src/models/memory.js`)

This file shallowly embeds the `MemoryStore` of `src/models/memory.js` and
proves the specification claims about it.

Modelling conventions (JavaScript to Lean):

* The two module tables `this.sessions` and `this.session_timers` are plain
  JS objects used as string-keyed maps.  They are embedded as association
  lists in insertion order, which matches JS property order for string keys:
  assigning to an existing key keeps its position, assigning a fresh key
  appends it, `delete` removes it.  `tget`/`tset`/`tdel`/`tkeys` model
  property read, property assignment, `delete`, and `Object.keys` (also the
  `for ... in` key snapshot).
* `Date.now()` is an external clock; operations that read it take an explicit
  `now : Nat` (milliseconds since the epoch).
* `JSON.stringify` / `JSON.parse` are JS builtins, not code of this
  repository.  A serialized record is embedded as `Stored`: either
  `Stored.json j` — a string that `JSON.parse` accepts, represented by the
  JSON value `j` it parses to — or `Stored.malformed s`, a string on which
  `JSON.parse` throws a SyntaxError.  `JSON.stringify` of a session value
  always yields a parseable string, i.e. `Stored.json`.  A `Date` object
  stringifies to its ISO string; that string is embedded as `Json.dateStr t`
  where `t` is the timestamp `new Date(s).getTime()` revives it to
  (`memory.js` lines 204-206 perform exactly that revival).
* JS exceptions (`TypeError` from a property access on `undefined`/`null`,
  `SyntaxError` from `JSON.parse`) are embedded as `Except JsError`.
  Because an exception escapes after the table mutations already performed,
  every operation returns its result paired with the post state.
-/

namespace Spotispy

/-! ## JS objects as string-keyed tables -/

/-- Property read `t[k]`: `none` models `undefined` (key absent). -/
def tget {α : Type} : List (String × α) → String → Option α
  | [], _ => none
  | (k', v) :: t, k => if k' = k then some v else tget t k

/-- Property assignment `t[k] = v`: an existing key keeps its position, a
fresh key is appended (JS string-key property order). -/
def tset {α : Type} : List (String × α) → String → α → List (String × α)
  | [], k, v => [(k, v)]
  | (k', v') :: t, k, v => if k' = k then (k', v) :: t else (k', v') :: tset t k v

/-- `delete t[k]`. -/
def tdel {α : Type} : List (String × α) → String → List (String × α)
  | [], _ => []
  | (k', v') :: t, k => if k' = k then tdel t k else (k', v') :: tdel t k

/-- `Object.keys(t)`, also the key snapshot of `for (var k in t)`. -/
def tkeys {α : Type} (t : List (String × α)) : List String := t.map Prod.fst

/-! ## JSON values and the bits of JS semantics the store touches -/

/-- A JSON value, as produced by `JSON.parse` (and, for session values passed
in by the middleware, the object graph handed to `JSON.stringify`).  `num`
covers the numeric timestamps the store compares; `dateStr t` is an ISO date
string (in a live session value: a `Date` object, which stringifies to that
string) whose `new Date` revival has timestamp `t`. -/
inductive Json : Type where
  | null : Json
  | num : Nat → Json
  | dateStr : Nat → Json
  | str : String → Json
  | obj : List (String × Json) → Json

/-- The JS exceptions the store can raise. -/
inductive JsError : Type where
  | typeError : JsError
  | syntaxError : JsError
deriving DecidableEq

/-- A value held in `this.sessions`: a string, viewed through `JSON.parse` —
either parseable (represented by its parse) or one `JSON.parse` throws on. -/
inductive Stored : Type where
  | json : Json → Stored
  | malformed : String → Stored

/-- Property access `j.p` on a parsed value: `null` (and `undefined`, see
`jsGetOpt`) throws a TypeError; an object looks the key up (absent gives
`undefined`); a boxed primitive has no such own property. -/
def jsGet : Json → String → Except JsError (Option Json)
  | .null, _ => .error .typeError
  | .obj fs, p => .ok (tget fs p)
  | _, _ => .ok none

/-- Property access on a possibly-`undefined` value (`none` = `undefined`). -/
def jsGetOpt : Option Json → String → Except JsError (Option Json)
  | none, _ => .error .typeError
  | some j, p => jsGet j p

/-- The value of the local `expires` after lines 204-206 of `memory.js`:
`typeof sess.cookie.expires === 'string' ? new Date(sess.cookie.expires) :
sess.cookie.expires`.  `date none` is an Invalid Date (a non-date string fed
to `new Date`); `objVal` any other object. -/
inductive ExpVal : Type where
  | undef : ExpVal
  | null : ExpVal
  | num : Nat → ExpVal
  | date : Option Nat → ExpVal
  | objVal : ExpVal
deriving DecidableEq

/-- Lines 204-206: convert the raw `sess.cookie.expires` property (`none` =
absent/`undefined`) to the local `expires`.  Every string goes through
`new Date`, producing a `Date` object: valid for an ISO date string,
Invalid Date otherwise. -/
def convertExpires : Option Json → ExpVal
  | none => .undef
  | some .null => .null
  | some (.num n) => .num n
  | some (.dateStr t) => .date (some t)
  | some (.str _) => .date none
  | some (.obj _) => .objVal

/-- JS truthiness of the converted `expires` (`expires && ...`, line 209).
A `Date` object is truthy even when invalid or at timestamp 0; the number 0,
`null` and `undefined` are falsy. -/
def ExpVal.truthy : ExpVal → Bool
  | .undef => false
  | .null => false
  | .num n => n != 0
  | .date _ => true
  | .objVal => true

/-- JS comparison `expires <= Date.now()` (line 209).  An Invalid Date and a
plain object coerce to NaN, so the comparison is false. -/
def ExpVal.leNow : ExpVal → Nat → Bool
  | .num n, now => n ≤ now
  | .date (some t), now => t ≤ now
  | _, _ => false

/-- The access chain `sess.cookie.expires` plus the string-to-Date
conversion of lines 204-206.  Throws a TypeError exactly when `sess` is
`null` or `sess.cookie` is `undefined` or `null`. -/
def readExpires (sess : Json) : Except JsError ExpVal :=
  match jsGet sess "cookie" with
  | .error e => .error e
  | .ok cookieVal =>
    match jsGetOpt cookieVal "expires" with
    | .error e => .error e
    | .ok expJ => .ok (convertExpires expJ)

/-! ## The store -/

/-- The `MemoryStore` state: the two tables plus the immutable
`this.options.timeout` set by the constructor (`timeoutTicks` of the spec). -/
structure MemoryStore : Type where
  sessions : List (String × Stored)
  session_timers : List (String × Int)
  timeout : Int

/-- The constructor (lines 27-41): both tables empty; `options.timeout`
defaults to `-1` (never expire) and is overridden when supplied. -/
def MemoryStore.init (options_timeout : Option Int) : MemoryStore :=
  { sessions := [], session_timers := [], timeout := options_timeout.getD (-1) }

/-- `getSession` (lines 188-216).  Absent id: return `undefined` untouched.
Present: first reset the id's timer (line 199), then `JSON.parse` (line 202,
may throw), read and convert `sess.cookie.expires` (lines 204-206, may
throw); if truthy and past-or-present (line 209), delete the id from both
tables and return `undefined`; otherwise return the parsed session. -/
def getSession (st : MemoryStore) (sessionId : String) (now : Nat) :
    Except JsError (Option Json) × MemoryStore :=
  match tget st.sessions sessionId with
  | none => (.ok none, st)
  | some stored =>
    let st1 : MemoryStore :=
      { st with session_timers := tset st.session_timers sessionId st.timeout }
    match stored with
    | .malformed _ => (.error .syntaxError, st1)
    | .json sess =>
      match readExpires sess with
      | .error e => (.error e, st1)
      | .ok expires =>
        if expires.truthy && expires.leNow now then
          (.ok none,
            { st1 with sessions := tdel st1.sessions sessionId,
                       session_timers := tdel st1.session_timers sessionId })
        else
          (.ok (some sess), st1)

/-- `get` (lines 126-128): defers the callback with `getSession`'s result. -/
def MemoryStore.get (st : MemoryStore) (sessionId : String) (now : Nat) :
    Except JsError (Option Json) × MemoryStore :=
  getSession st sessionId now

/-- `set` (lines 153-160): a fresh id gets `options.timeout` as its timer;
the serialized session is stored unconditionally. -/
def MemoryStore.set (st : MemoryStore) (sessionId : String) (session : Json) :
    MemoryStore :=
  let timers :=
    if (tget st.sessions sessionId).isNone then
      tset st.session_timers sessionId st.timeout
    else st.session_timers
  { st with session_timers := timers,
            sessions := tset st.sessions sessionId (.json session) }

/-- `destroy` (lines 112-116): delete the id from both tables. -/
def MemoryStore.destroy (st : MemoryStore) (sessionId : String) : MemoryStore :=
  { st with session_timers := tdel st.session_timers sessionId,
            sessions := tdel st.sessions sessionId }

/-- `clear` (lines 99-103): both tables reset to fresh empty objects. -/
def MemoryStore.clear (st : MemoryStore) : MemoryStore :=
  { st with sessions := [], session_timers := [] }

/-- The assignment `currentSession.cookie = session.cookie` followed by
`JSON.stringify(currentSession)` (lines 176-177), as it affects the stored
value: assigning a real value sets the property; assigning `undefined`
(`session` had no `cookie`) leaves a property `JSON.stringify` then drops. -/
def objAssign : Json → String → Option Json → Json
  | .obj fs, p, some v => .obj (tset fs p v)
  | .obj fs, p, none => .obj (tdel fs p)
  | j, _, _ => j

/-- `touch` (lines 171-181): re-read via `getSession`; when found, replace
the `cookie` field with `session.cookie` and re-store the serialization;
when not found, change nothing further. -/
def MemoryStore.touch (st : MemoryStore) (sessionId : String) (session : Json)
    (now : Nat) : Except JsError Unit × MemoryStore :=
  match getSession st sessionId now with
  | (.error e, st') => (.error e, st')
  | (.ok none, st') => (.ok (), st')
  | (.ok (some currentSession), st') =>
    match jsGet session "cookie" with
    | .error e => (.error e, st')
    | .ok cookieVal =>
      (.ok (), { st' with
        sessions := tset st'.sessions sessionId
          (.json (objAssign currentSession "cookie" cookieVal)) })

/-- The loop body of `all` (lines 80-87): visit each id of the
`Object.keys(this.sessions)` snapshot, keep the sessions `getSession`
returns, in visit order; an exception aborts the enumeration. -/
def allGo (now : Nat) : List String → MemoryStore →
    Except JsError (List (String × Json)) × MemoryStore
  | [], st => (.ok [], st)
  | sessionId :: rest, st =>
    match getSession st sessionId now with
    | (.error e, st') => (.error e, st')
    | (.ok none, st') => allGo now rest st'
    | (.ok (some sess), st') =>
      match allGo now rest st' with
      | (.error e, st'') => (.error e, st'')
      | (.ok sessions, st'') => (.ok ((sessionId, sess) :: sessions), st'')

/-- `all` (lines 76-90). -/
def MemoryStore.all (st : MemoryStore) (now : Nat) :
    Except JsError (List (String × Json)) × MemoryStore :=
  allGo now (tkeys st.sessions) st

/-- `length` (lines 146-151): the number of sessions `all` returns. -/
def MemoryStore.length (st : MemoryStore) (now : Nat) :
    Except JsError Nat × MemoryStore :=
  match st.all now with
  | (.error e, st') => (.error e, st')
  | (.ok sessions, st') => (.ok sessions.length, st')

/-! ## The sweeper -/

/-- The `for (var sessionId in self.session_timers)` body of the interval
callback (lines 50-57): a timer at exactly `0` is destroyed, any other is
decremented.  A key already deleted when its turn comes is skipped, as JS
`for ... in` skips deleted properties. -/
def sweepKeys : List String → MemoryStore → MemoryStore
  | [], st => st
  | sessionId :: rest, st =>
    match tget st.session_timers sessionId with
    | some timer =>
      if timer = 0 then sweepKeys rest (st.destroy sessionId)
      else sweepKeys rest
        { st with session_timers := tset st.session_timers sessionId (timer - 1) }
    | none => sweepKeys rest st

/-- One firing of the interval callback (lines 48-59). -/
def sweepOnce (st : MemoryStore) : MemoryStore :=
  sweepKeys (tkeys st.session_timers) st

/-- One sweep cycle as observable from outside: the interval is only
installed when `options.timeout >= 0` (line 46), so with a negative timeout
a cycle changes nothing. -/
def sweepCycle (st : MemoryStore) : MemoryStore :=
  if 0 ≤ st.timeout then sweepOnce st else st

/-- `n` consecutive sweep cycles. -/
def sweepCycles : Nat → MemoryStore → MemoryStore
  | 0, st => st
  | n + 1, st => sweepCycles n (sweepCycle st)

/-! ## Structured session records (the spec's data model, for the round trip) -/

/-- The spec's cookie: at most an `expires` attribute, a `Date` whose
timestamp is `t` (serialized to an ISO string), or absent. -/
structure Cookie : Type where
  expires : Option Nat
deriving DecidableEq

/-- The spec's `SessionRecord`: a `cookie` field plus opaque string-valued
business fields. -/
structure SessionRecord : Type where
  cookie : Cookie
  data : List (String × String)
deriving DecidableEq

/-- The session value the middleware hands to `set`/`touch` for a
structured record. -/
def Cookie.toJson (c : Cookie) : Json :=
  .obj (match c.expires with
        | some t => [("expires", .dateStr t)]
        | none => [])

/-- The JSON value of a structured record: the `cookie` property followed by
the business fields. -/
def SessionRecord.toJson (r : SessionRecord) : Json :=
  .obj (("cookie", r.cookie.toJson) :: r.data.map (fun p => (p.1, .str p.2)))

/-- Decode a cookie back from its JSON value. -/
def Cookie.fromJson : Json → Option Cookie
  | .obj [] => some { expires := none }
  | .obj [("expires", .dateStr t)] => some { expires := some t }
  | _ => none

/-- Decode the business fields back from JSON object fields. -/
def dataFromJson : List (String × Json) → Option (List (String × String))
  | [] => some []
  | (k, .str v) :: rest =>
    match dataFromJson rest with
    | some d => some ((k, v) :: d)
    | none => none
  | _ => none

/-- Decode a structured record back from its JSON value. -/
def SessionRecord.fromJson : Json → Option SessionRecord
  | .obj (("cookie", cj) :: rest) =>
    match Cookie.fromJson cj, dataFromJson rest with
    | some c, some d => some { cookie := c, data := d }
    | _, _ => none
  | _ => none

/-! ## Operation traces (for the table-lockstep invariant) -/

/-- One caller- or sweeper-driven operation. -/
inductive Op : Type where
  | set : String → Json → Op
  | get : String → Nat → Op
  | touch : String → Json → Nat → Op
  | destroy : String → Op
  | all : Nat → Op
  | clear : Op
  | length : Nat → Op
  | sweep : Op

/-- The state after one operation (for fallible operations, the state in
which the callback — or the escaped exception — is observed). -/
def applyOp (st : MemoryStore) : Op → MemoryStore
  | .set id s => st.set id s
  | .get id now => (st.get id now).2
  | .touch id s now => (st.touch id s now).2
  | .destroy id => st.destroy id
  | .all now => (st.all now).2
  | .clear => st.clear
  | .length now => (st.length now).2
  | .sweep => sweepCycle st

/-- The state after a sequence of operations. -/
def applyOps (st : MemoryStore) : List Op → MemoryStore
  | [] => st
  | op :: ops => applyOps (applyOp st op) ops

/-! ## Concrete fixtures used by the witnesses -/

/-- A record whose cookie expired at timestamp 1000. -/
def wRec : SessionRecord :=
  { cookie := { expires := some 1000 }, data := [("user", "u1")] }

/-- A store (timeout 5) holding `wRec` under `"sid"`. -/
def wStore : MemoryStore := (MemoryStore.init (some 5)).set "sid" wRec.toJson

/-- A record with no expiry. -/
def wLive : SessionRecord :=
  { cookie := { expires := none }, data := [("user", "u2")] }

/-- A store (timeout 3) holding `wLive` under `"a"`. -/
def wLiveStore : MemoryStore := (MemoryStore.init (some 3)).set "a" wLive.toJson

/-- A record expiring far in the future, at timestamp 5000. -/
def wFut : SessionRecord :=
  { cookie := { expires := some 5000 }, data := [("user", "u3")] }

/-- A store (timeout 2) holding `wFut` under `"a"`. -/
def wFutStore : MemoryStore := (MemoryStore.init (some 2)).set "a" wFut.toJson

/-- A store holding a parseable record that has no `cookie` field. -/
def wBadStore : MemoryStore :=
  (MemoryStore.init (some 2)).set "bad" (Json.obj [("user", Json.str "u")])

/-- The Record Table and the Timer Table hold exactly the same keys. -/
def KeysEq (st : MemoryStore) : Prop :=
  ∀ k, (tget st.sessions k).isSome = (tget st.session_timers k).isSome

/-- The timestamp a converted `expires` value compares by (NaN cases: none). -/
def ExpVal.time : ExpVal → Option Nat
  | .num n => some n
  | .date (some t) => some t
  | _ => none

/-- A stored value on which the read path must raise. -/
def storedRaises (s : Stored) : Prop :=
  (∃ str, s = .malformed str) ∨
  (∃ j e, s = .json j ∧ readExpires j = .error e)


/-! ## Table lemmas -/

theorem tget_tset {α : Type} (t : List (String × α)) (k k' : String) (v : α) :
    tget (tset t k v) k' = if k' = k then some v else tget t k' := by
  induction t with
  | nil =>
    by_cases h : k' = k
    · subst h; simp [tset, tget]
    · have h' : ¬k = k' := fun hh => h hh.symm
      simp [tset, tget, h, h']
  | cons hd tl ih =>
    obtain ⟨k0, v0⟩ := hd
    by_cases h0 : k0 = k
    · subst h0
      by_cases h : k' = k0
      · subst h; simp [tset, tget]
      · have h' : ¬k0 = k' := fun hh => h hh.symm
        simp [tset, tget, h, h']
    · by_cases h : k' = k0
      · subst h
        simp [tset, tget, h0]
      · have h' : ¬k0 = k' := fun hh => h hh.symm
        simp [tset, tget, h0, h, h', ih]

theorem tget_tdel {α : Type} (t : List (String × α)) (k k' : String) :
    tget (tdel t k) k' = if k' = k then none else tget t k' := by
  induction t with
  | nil =>
    by_cases h : k' = k <;> simp [tdel, tget, h]
  | cons hd tl ih =>
    obtain ⟨k0, v0⟩ := hd
    by_cases h0 : k0 = k
    · subst h0
      by_cases h : k' = k0
      · subst h; simp [tdel, tget, ih]
      · have h' : ¬k0 = k' := fun hh => h hh.symm
        simp [tdel, tget, h, h', ih]
    · by_cases h : k' = k0
      · subst h
        simp [tdel, tget, h0]
      · have h' : ¬k0 = k' := fun hh => h hh.symm
        simp [tdel, tget, h0, h, h', ih]

theorem tdel_eq_of_tget_none {α : Type} (t : List (String × α)) (k : String)
    (h : tget t k = none) : tdel t k = t := by
  induction t with
  | nil => rfl
  | cons hd tl ih =>
    obtain ⟨k0, v0⟩ := hd
    by_cases h0 : k0 = k
    · simp [tget, h0] at h
    · simp [tget, h0] at h
      simp [tdel, h0, ih h]

theorem tdel_tset_self {α : Type} (t : List (String × α)) (k : String) (v : α) :
    tdel (tset t k v) k = tdel t k := by
  induction t with
  | nil => simp [tset, tdel]
  | cons hd tl ih =>
    obtain ⟨k0, v0⟩ := hd
    by_cases h0 : k0 = k <;> simp [tset, tdel, h0, ih]

theorem tget_mem_tkeys {α : Type} (t : List (String × α)) (k : String) (v : α)
    (h : tget t k = some v) : k ∈ tkeys t := by
  induction t with
  | nil => simp [tget] at h
  | cons hd tl ih =>
    obtain ⟨k0, v0⟩ := hd
    by_cases h0 : k0 = k
    · simp [tkeys, h0]
    · simp [tget, h0] at h
      simp [tkeys] at ih ⊢
      exact Or.inr (ih h)

theorem tget_none_of_not_mem {α : Type} (t : List (String × α)) (k : String)
    (h : k ∉ tkeys t) : tget t k = none := by
  induction t with
  | nil => rfl
  | cons hd tl ih =>
    obtain ⟨k0, v0⟩ := hd
    simp only [tkeys, List.map_cons, List.mem_cons, not_or] at h
    have h' : ¬k0 = k := fun hh => h.1 hh.symm
    simpa [tget, h'] using ih h.2

theorem tkeys_tset_present {α : Type} (t : List (String × α)) (k : String)
    (v w : α) (h : tget t k = some v) : tkeys (tset t k w) = tkeys t := by
  induction t with
  | nil => simp [tget] at h
  | cons hd tl ih =>
    obtain ⟨k0, v0⟩ := hd
    by_cases h0 : k0 = k
    · simp [tset, tkeys, h0]
    · simp [tget, h0] at h
      simp [tset, tkeys, h0] at ih ⊢
      exact ih h

theorem tkeys_tset_absent {α : Type} (t : List (String × α)) (k : String)
    (w : α) (h : tget t k = none) : tkeys (tset t k w) = tkeys t ++ [k] := by
  induction t with
  | nil => simp [tset, tkeys]
  | cons hd tl ih =>
    obtain ⟨k0, v0⟩ := hd
    by_cases h0 : k0 = k
    · simp [tget, h0] at h
    · simp [tget, h0] at h
      simp [tset, tkeys, h0] at ih ⊢
      exact ih h

theorem count_tkeys_tset_other {α : Type} (t : List (String × α)) (k k' : String)
    (v : α) (h : k' ≠ k) : (tkeys (tset t k' v)).count k = (tkeys t).count k := by
  induction t with
  | nil => simp [tset, tkeys, List.count_cons, h, Ne.symm h]
  | cons hd tl ih =>
    obtain ⟨k0, v0⟩ := hd
    by_cases h0 : k0 = k'
    · simp [tset, tkeys, h0]
    · simp [tset, tkeys, h0, List.count_cons] at ih ⊢
      omega

theorem count_tkeys_tdel_other {α : Type} (t : List (String × α)) (k k' : String)
    (h : k' ≠ k) : (tkeys (tdel t k')).count k = (tkeys t).count k := by
  induction t with
  | nil => simp [tdel]
  | cons hd tl ih =>
    obtain ⟨k0, v0⟩ := hd
    by_cases h0 : k0 = k'
    · subst h0
      simp [tdel, tkeys, List.count_cons, Ne.symm h] at ih ⊢
      omega
    · simp [tdel, tkeys, h0, List.count_cons] at ih ⊢
      omega

theorem count_tkeys_eq_zero_of_tget_none {α : Type} (t : List (String × α))
    (k : String) (h : tget t k = none) : (tkeys t).count k = 0 := by
  induction t with
  | nil => rfl
  | cons hd tl ih =>
    obtain ⟨k0, v0⟩ := hd
    by_cases h0 : k0 = k
    · simp [tget, h0] at h
    · simp only [tget, if_neg h0] at h
      simp only [tkeys, List.map_cons, List.count_cons] at ih ⊢
      have h' : ¬k = k0 := fun hh => h0 hh.symm
      simp [h0, h', ih h]

/-! ## `getSession` case analysis -/

theorem getSession_absent (st : MemoryStore) (id : String) (now : Nat)
    (h : tget st.sessions id = none) : getSession st id now = (.ok none, st) := by
  simp [getSession, h]

theorem getSession_malformed (st : MemoryStore) (id : String) (now : Nat) (s : String)
    (h : tget st.sessions id = some (.malformed s)) :
    getSession st id now = (.error .syntaxError,
      { st with session_timers := tset st.session_timers id st.timeout }) := by
  simp [getSession, h]

theorem getSession_readErr (st : MemoryStore) (id : String) (now : Nat)
    (sess : Json) (e : JsError)
    (hs : tget st.sessions id = some (.json sess)) (hx : readExpires sess = .error e) :
    getSession st id now = (.error e,
      { st with session_timers := tset st.session_timers id st.timeout }) := by
  simp [getSession, hs, hx]

theorem getSession_expired (st : MemoryStore) (id : String) (now : Nat)
    (sess : Json) (ev : ExpVal)
    (hs : tget st.sessions id = some (.json sess)) (hx : readExpires sess = .ok ev)
    (hc : (ev.truthy && ev.leNow now) = true) :
    getSession st id now = (.ok none, st.destroy id) := by
  simp [getSession, hs, hx, hc, MemoryStore.destroy, tdel_tset_self]

theorem getSession_live (st : MemoryStore) (id : String) (now : Nat)
    (sess : Json) (ev : ExpVal)
    (hs : tget st.sessions id = some (.json sess)) (hx : readExpires sess = .ok ev)
    (hc : (ev.truthy && ev.leNow now) = false) :
    getSession st id now = (.ok (some sess),
      { st with session_timers := tset st.session_timers id st.timeout }) := by
  simp [getSession, hs, hx, hc]

theorem getSession_cases (st : MemoryStore) (id : String) (now : Nat) :
    (tget st.sessions id = none ∧ getSession st id now = (.ok none, st)) ∨
    (∃ s, tget st.sessions id = some (.malformed s) ∧
      getSession st id now = (.error .syntaxError,
        { st with session_timers := tset st.session_timers id st.timeout })) ∨
    (∃ sess e, tget st.sessions id = some (.json sess) ∧ readExpires sess = .error e ∧
      getSession st id now = (.error e,
        { st with session_timers := tset st.session_timers id st.timeout })) ∨
    (∃ sess ev, tget st.sessions id = some (.json sess) ∧ readExpires sess = .ok ev ∧
      (ev.truthy && ev.leNow now) = true ∧
      getSession st id now = (.ok none, st.destroy id)) ∨
    (∃ sess ev, tget st.sessions id = some (.json sess) ∧ readExpires sess = .ok ev ∧
      (ev.truthy && ev.leNow now) = false ∧
      getSession st id now = (.ok (some sess),
        { st with session_timers := tset st.session_timers id st.timeout })) := by
  cases hs : tget st.sessions id with
  | none => exact Or.inl ⟨rfl, getSession_absent st id now hs⟩
  | some stored =>
    cases stored with
    | malformed s =>
      exact Or.inr (Or.inl ⟨s, rfl, getSession_malformed st id now s hs⟩)
    | json sess =>
      cases hx : readExpires sess with
      | error e =>
        exact Or.inr (Or.inr (Or.inl ⟨sess, e, rfl, hx, getSession_readErr st id now sess e hs hx⟩))
      | ok ev =>
        cases hc : (ev.truthy && ev.leNow now) with
        | true =>
          exact Or.inr (Or.inr (Or.inr (Or.inl
            ⟨sess, ev, rfl, hx, hc, getSession_expired st id now sess ev hs hx hc⟩)))
        | false =>
          exact Or.inr (Or.inr (Or.inr (Or.inr
            ⟨sess, ev, rfl, hx, hc, getSession_live st id now sess ev hs hx hc⟩)))

/-- `getSession` only ever touches the entries of its own id. -/
theorem getSession_other (st : MemoryStore) (id k : String) (now : Nat) (h : k ≠ id) :
    tget (getSession st id now).2.sessions k = tget st.sessions k ∧
    tget (getSession st id now).2.session_timers k = tget st.session_timers k := by
  rcases getSession_cases st id now with ⟨_, he⟩ | ⟨s, _, he⟩ | ⟨sess, e, _, _, he⟩ |
    ⟨sess, ev, _, _, _, he⟩ | ⟨sess, ev, _, _, _, he⟩ <;>
    simp [he, MemoryStore.destroy, tget_tset, tget_tdel, h]

/-- `getSession` never changes the configured timeout. -/
theorem getSession_timeout (st : MemoryStore) (id : String) (now : Nat) :
    (getSession st id now).2.timeout = st.timeout := by
  rcases getSession_cases st id now with ⟨_, he⟩ | ⟨s, _, he⟩ | ⟨sess, e, _, _, he⟩ |
    ⟨sess, ev, _, _, _, he⟩ | ⟨sess, ev, _, _, _, he⟩ <;>
    simp [he, MemoryStore.destroy]

/-- Inversion: a successful `getSession` returning a session found a live
serialized record and only reset the id's timer. -/
theorem getSession_ok_some_inv (st : MemoryStore) (id : String) (now : Nat)
    (sess : Json) (st' : MemoryStore)
    (h : getSession st id now = (.ok (some sess), st')) :
    tget st.sessions id = some (.json sess) ∧
    st' = { st with session_timers := tset st.session_timers id st.timeout } := by
  rcases getSession_cases st id now with ⟨_, he⟩ | ⟨s, _, he⟩ | ⟨s0, e, _, _, he⟩ |
    ⟨s0, ev, _, _, _, he⟩ | ⟨s0, ev, hs, _, _, he⟩ <;> rw [he] at h <;>
    simp only [Prod.mk.injEq] at h
  · exact absurd h.1 (by simp)
  · exact absurd h.1 (by simp)
  · exact absurd h.1 (by simp)
  · exact absurd h.1 (by simp)
  · obtain ⟨h1, h2⟩ := h
    have hsess : s0 = sess := by
      cases h1
      rfl
    subst hsess
    exact ⟨hs, h2.symm⟩

/-- Inversion: a `getSession` that finds nothing leaves no record at the id
(either the id was absent or the expired record was just deleted). -/
theorem getSession_ok_none_inv (st : MemoryStore) (id : String) (now : Nat)
    (st' : MemoryStore) (h : getSession st id now = (.ok none, st')) :
    tget st'.sessions id = none ∧
    (st'.sessions = st.sessions ∨ st'.sessions = tdel st.sessions id) := by
  rcases getSession_cases st id now with ⟨hs, he⟩ | ⟨s, _, he⟩ | ⟨s0, e, _, _, he⟩ |
    ⟨s0, ev, hs, _, _, he⟩ | ⟨s0, ev, hs, _, _, he⟩ <;> rw [he] at h <;>
    simp only [Prod.mk.injEq] at h
  · obtain ⟨_, h2⟩ := h
    subst h2
    exact ⟨hs, Or.inl rfl⟩
  · exact absurd h.1 (by simp)
  · exact absurd h.1 (by simp)
  · obtain ⟨_, h2⟩ := h
    subst h2
    exact ⟨by simp [MemoryStore.destroy, tget_tdel], Or.inr rfl⟩
  · exact absurd h.1 (by simp)

/-! ## The table-lockstep invariant -/


theorem keysEq_init (options_timeout : Option Int) :
    KeysEq (MemoryStore.init options_timeout) := by
  intro k
  rfl

theorem keysEq_set (st : MemoryStore) (id : String) (s : Json) (h : KeysEq st) :
    KeysEq (st.set id s) := by
  intro k
  by_cases hk : k = id
  · subst hk
    cases hs : tget st.sessions k with
    | none => simp [MemoryStore.set, hs, tget_tset]
    | some v =>
      have := h k
      rw [hs] at this
      simp [MemoryStore.set, hs, tget_tset, ← this]
  · cases hs : tget st.sessions id with
    | none => simp [MemoryStore.set, hs, tget_tset, hk, h k]
    | some v => simp [MemoryStore.set, hs, tget_tset, hk, h k]

theorem keysEq_destroy (st : MemoryStore) (id : String) (h : KeysEq st) :
    KeysEq (st.destroy id) := by
  intro k
  by_cases hk : k = id <;> simp [MemoryStore.destroy, tget_tdel, hk, h k]

theorem keysEq_clear (st : MemoryStore) (_h : KeysEq st) : KeysEq st.clear := by
  intro k
  rfl

theorem keysEq_getSession (st : MemoryStore) (id : String) (now : Nat)
    (h : KeysEq st) : KeysEq (getSession st id now).2 := by
  rcases getSession_cases st id now with ⟨hs, he⟩ | ⟨s, hs, he⟩ | ⟨sess, e, hs, _, he⟩ |
    ⟨sess, ev, hs, _, _, he⟩ | ⟨sess, ev, hs, _, _, he⟩
  · rw [he]; exact h
  · rw [he]
    intro k
    by_cases hk : k = id
    · subst hk; simp [hs, tget_tset]
    · simp [tget_tset, hk, h k]
  · rw [he]
    intro k
    by_cases hk : k = id
    · subst hk; simp [hs, tget_tset]
    · simp [tget_tset, hk, h k]
  · rw [he]
    exact keysEq_destroy st id h
  · rw [he]
    intro k
    by_cases hk : k = id
    · subst hk; simp [hs, tget_tset]
    · simp [tget_tset, hk, h k]

theorem keysEq_touch (st : MemoryStore) (id : String) (s : Json) (now : Nat)
    (h : KeysEq st) : KeysEq (st.touch id s now).2 := by
  unfold MemoryStore.touch
  cases hg : getSession st id now with
  | mk r st' =>
    have hst' : KeysEq st' := by
      have := keysEq_getSession st id now h
      rw [hg] at this
      exact this
    cases r with
    | error e => exact hst'
    | ok o =>
      cases o with
      | none => exact hst'
      | some currentSession =>
        cases hc : jsGet s "cookie" with
        | error e => exact hst'
        | ok cookieVal =>
          intro k
          have hinv := getSession_ok_some_inv st id now currentSession st' hg
          by_cases hk : k = id
          · subst hk
            have : tget st'.session_timers k = some st.timeout := by
              rw [hinv.2]
              simp [tget_tset]
            simp [tget_tset, this]
          · simp [tget_tset, hk, hst' k]

theorem keysEq_allGo (now : Nat) (ks : List String) (st : MemoryStore)
    (h : KeysEq st) : KeysEq (allGo now ks st).2 := by
  induction ks generalizing st with
  | nil => exact h
  | cons k rest ih =>
    have hk : KeysEq (getSession st k now).2 := keysEq_getSession st k now h
    unfold allGo
    split
    · next e st' heq =>
      rw [heq] at hk
      exact hk
    · next st' heq =>
      rw [heq] at hk
      exact ih st' hk
    · next sess st' heq =>
      rw [heq] at hk
      have h2 := ih st' hk
      split
      · next e st'' heq2 =>
        rw [heq2] at h2
        exact h2
      · next sessions st'' heq2 =>
        rw [heq2] at h2
        exact h2

theorem keysEq_all (st : MemoryStore) (now : Nat) (h : KeysEq st) :
    KeysEq (st.all now).2 :=
  keysEq_allGo now (tkeys st.sessions) st h

theorem keysEq_length (st : MemoryStore) (now : Nat) (h : KeysEq st) :
    KeysEq (st.length now).2 := by
  unfold MemoryStore.length
  have := keysEq_all st now h
  cases ha : st.all now with
  | mk r st' =>
    rw [ha] at this
    cases r with
    | error e => exact this
    | ok sessions => exact this

theorem keysEq_sweepKeys (ks : List String) (st : MemoryStore) (h : KeysEq st) :
    KeysEq (sweepKeys ks st) := by
  induction ks generalizing st with
  | nil => exact h
  | cons k rest ih =>
    unfold sweepKeys
    cases ht : tget st.session_timers k with
    | none => exact ih st h
    | some timer =>
      by_cases h0 : timer = 0
      · simp only [h0, if_pos rfl]
        exact ih _ (keysEq_destroy st k h)
      · simp only [if_neg h0]
        refine ih _ ?_
        intro k'
        by_cases hk : k' = k
        · subst hk
          have := h k'
          rw [ht] at this
          simp [tget_tset, this]
        · simp [tget_tset, hk, h k']

theorem keysEq_sweepCycle (st : MemoryStore) (h : KeysEq st) :
    KeysEq (sweepCycle st) := by
  unfold sweepCycle
  by_cases hto : 0 ≤ st.timeout
  · simp only [if_pos hto]
    exact keysEq_sweepKeys (tkeys st.session_timers) st h
  · simp only [if_neg hto]
    exact h

theorem keysEq_applyOp (st : MemoryStore) (op : Op) (h : KeysEq st) :
    KeysEq (applyOp st op) := by
  cases op with
  | set id s => exact keysEq_set st id s h
  | get id now => exact keysEq_getSession st id now h
  | touch id s now => exact keysEq_touch st id s now h
  | destroy id => exact keysEq_destroy st id h
  | all now => exact keysEq_all st now h
  | clear => exact keysEq_clear st h
  | length now => exact keysEq_length st now h
  | sweep => exact keysEq_sweepCycle st h

theorem keysEq_applyOps (st : MemoryStore) (ops : List Op) (h : KeysEq st) :
    KeysEq (applyOps st ops) := by
  induction ops generalizing st with
  | nil => exact h
  | cons op rest ih => exact ih _ (keysEq_applyOp st op h)

/-! ## Sweep effect lemmas -/


theorem sweepKeys_cons_none (k : String) (rest : List String) (st : MemoryStore)
    (h : tget st.session_timers k = none) :
    sweepKeys (k :: rest) st = sweepKeys rest st := by
  show (match tget st.session_timers k with
        | some timer =>
          if timer = 0 then sweepKeys rest (st.destroy k)
          else sweepKeys rest
            { st with session_timers := tset st.session_timers k (timer - 1) }
        | none => sweepKeys rest st) = sweepKeys rest st
  rw [h]

theorem sweepKeys_cons_zero (k : String) (rest : List String) (st : MemoryStore)
    (h : tget st.session_timers k = some 0) :
    sweepKeys (k :: rest) st = sweepKeys rest (st.destroy k) := by
  show (match tget st.session_timers k with
        | some timer =>
          if timer = 0 then sweepKeys rest (st.destroy k)
          else sweepKeys rest
            { st with session_timers := tset st.session_timers k (timer - 1) }
        | none => sweepKeys rest st) = sweepKeys rest (st.destroy k)
  rw [h]
  show (if (0 : Int) = 0 then sweepKeys rest (st.destroy k)
        else sweepKeys rest
          { st with session_timers := tset st.session_timers k (0 - 1) }) =
       sweepKeys rest (st.destroy k)
  rw [if_pos rfl]

theorem sweepKeys_cons_dec (k : String) (rest : List String) (st : MemoryStore)
    (timer : Int) (h : tget st.session_timers k = some timer) (h0 : timer ≠ 0) :
    sweepKeys (k :: rest) st =
      sweepKeys rest { st with session_timers := tset st.session_timers k (timer - 1) } := by
  show (match tget st.session_timers k with
        | some timer =>
          if timer = 0 then sweepKeys rest (st.destroy k)
          else sweepKeys rest
            { st with session_timers := tset st.session_timers k (timer - 1) }
        | none => sweepKeys rest st) = _
  rw [h]
  show (if timer = 0 then sweepKeys rest (st.destroy k)
        else sweepKeys rest
          { st with session_timers := tset st.session_timers k (timer - 1) }) = _
  rw [if_neg h0]

theorem sweepKeys_timeout (ks : List String) (st : MemoryStore) :
    (sweepKeys ks st).timeout = st.timeout := by
  induction ks generalizing st with
  | nil => rfl
  | cons k rest ih =>
    cases ht : tget st.session_timers k with
    | none =>
      rw [sweepKeys_cons_none k rest st ht]
      exact ih st
    | some timer =>
      by_cases h0 : timer = 0
      · subst h0
        rw [sweepKeys_cons_zero k rest st ht, ih]
        rfl
      · rw [sweepKeys_cons_dec k rest st timer ht h0, ih]

/-- Sweeping a list of keys not containing `k` leaves `k`\'s entries (and the
multiplicity of `k` among the timer keys) untouched. -/
theorem sweepKeys_not_mem (ks : List String) (st : MemoryStore) (k : String)
    (h : k ∉ ks) :
    tget (sweepKeys ks st).sessions k = tget st.sessions k ∧
    tget (sweepKeys ks st).session_timers k = tget st.session_timers k ∧
    (tkeys (sweepKeys ks st).session_timers).count k =
      (tkeys st.session_timers).count k := by
  induction ks generalizing st with
  | nil => exact ⟨rfl, rfl, rfl⟩
  | cons k0 rest ih =>
    simp only [List.mem_cons, not_or] at h
    obtain ⟨hk0, hrest⟩ := h
    have hk0' : k0 ≠ k := fun hh => hk0 hh.symm
    cases ht : tget st.session_timers k0 with
    | none =>
      rw [sweepKeys_cons_none k0 rest st ht]
      exact ih st hrest
    | some timer =>
      by_cases h0 : timer = 0
      · subst h0
        rw [sweepKeys_cons_zero k0 rest st ht]
        obtain ⟨i1, i2, i3⟩ := ih (st.destroy k0) hrest
        refine ⟨?_, ?_, ?_⟩
        · rw [i1]
          simp [MemoryStore.destroy, tget_tdel, hk0'.symm]
        · rw [i2]
          simp [MemoryStore.destroy, tget_tdel, hk0'.symm]
        · rw [i3]
          exact count_tkeys_tdel_other st.session_timers k k0 hk0'
      · rw [sweepKeys_cons_dec k0 rest st timer ht h0]
        obtain ⟨i1, i2, i3⟩ :=
          ih { st with session_timers := tset st.session_timers k0 (timer - 1) } hrest
        refine ⟨?_, ?_, ?_⟩
        · rw [i1]
        · rw [i2]
          simp [tget_tset, hk0'.symm]
        · rw [i3]
          exact count_tkeys_tset_other st.session_timers k k0 (timer - 1) hk0'

theorem sweepKeys_append (a b : List String) (st : MemoryStore) :
    sweepKeys (a ++ b) st = sweepKeys b (sweepKeys a st) := by
  induction a generalizing st with
  | nil => rfl
  | cons k rest ih =>
    have hcons : (k :: rest) ++ b = k :: (rest ++ b) := rfl
    cases ht : tget st.session_timers k with
    | none =>
      rw [hcons, sweepKeys_cons_none k (rest ++ b) st ht,
          sweepKeys_cons_none k rest st ht]
      exact ih st
    | some timer =>
      by_cases h0 : timer = 0
      · subst h0
        rw [hcons, sweepKeys_cons_zero k (rest ++ b) st ht,
            sweepKeys_cons_zero k rest st ht]
        exact ih _
      · rw [hcons, sweepKeys_cons_dec k (rest ++ b) st timer ht h0,
            sweepKeys_cons_dec k rest st timer ht h0]
        exact ih _

/-- The effect of one whole sweep pass on a key `k` that occurs exactly once
in the timer table: a zero timer is destroyed (from both tables), any other
timer is decremented and the record is untouched. -/
theorem sweepOnce_effect (st : MemoryStore) (k : String) (v : Int)
    (hv : tget st.session_timers k = some v)
    (hc : (tkeys st.session_timers).count k = 1) :
    (v = 0 → tget (sweepOnce st).sessions k = none ∧
             tget (sweepOnce st).session_timers k = none) ∧
    (v ≠ 0 → tget (sweepOnce st).sessions k = tget st.sessions k ∧
             tget (sweepOnce st).session_timers k = some (v - 1) ∧
             (tkeys (sweepOnce st).session_timers).count k = 1) := by
  have hmem : k ∈ tkeys st.session_timers := tget_mem_tkeys _ k v hv
  obtain ⟨l1, l2, hdec⟩ := List.append_of_mem hmem
  have hnl : k ∉ l1 ∧ k ∉ l2 := by
    rw [hdec] at hc
    simp [List.count_append, List.count_cons] at hc
    constructor
    · rw [← List.count_eq_zero (a := k)]
      omega
    · rw [← List.count_eq_zero (a := k)]
      omega
  unfold sweepOnce
  rw [hdec, sweepKeys_append]
  obtain ⟨p1, p2, p3⟩ := sweepKeys_not_mem l1 st k hnl.1
  set stm := sweepKeys l1 st with hstm
  have hvm : tget stm.session_timers k = some v := by rw [p2, hv]
  constructor
  · intro h0
    subst h0
    rw [sweepKeys_cons_zero k l2 stm hvm]
    obtain ⟨q1, q2, _⟩ := sweepKeys_not_mem l2 (stm.destroy k) k hnl.2
    refine ⟨?_, ?_⟩
    · rw [q1]
      simp [MemoryStore.destroy, tget_tdel]
    · rw [q2]
      simp [MemoryStore.destroy, tget_tdel]
  · intro h0
    rw [sweepKeys_cons_dec k l2 stm v hvm h0]
    obtain ⟨q1, q2, q3⟩ := sweepKeys_not_mem l2
      { stm with session_timers := tset stm.session_timers k (v - 1) } k hnl.2
    refine ⟨?_, ?_, ?_⟩
    · rw [q1, ← p1]
    · rw [q2]
      simp [tget_tset]
    · rw [q3]
      show (tkeys (tset stm.session_timers k (v - 1))).count k = 1
      rw [tkeys_tset_present stm.session_timers k v (v - 1) hvm, p3, hc]

/-- One enabled sweep cycle, seen from a single live key. -/
theorem sweepCycle_effect (st : MemoryStore) (k : String) (v : Int)
    (hto : 0 ≤ st.timeout)
    (hv : tget st.session_timers k = some v)
    (hc : (tkeys st.session_timers).count k = 1) :
    (v = 0 → tget (sweepCycle st).sessions k = none ∧
             tget (sweepCycle st).session_timers k = none) ∧
    (v ≠ 0 → tget (sweepCycle st).sessions k = tget st.sessions k ∧
             tget (sweepCycle st).session_timers k = some (v - 1) ∧
             (tkeys (sweepCycle st).session_timers).count k = 1) := by
  unfold sweepCycle
  rw [if_pos hto]
  exact sweepOnce_effect st k v hv hc

theorem sweepCycle_timeout (st : MemoryStore) :
    (sweepCycle st).timeout = st.timeout := by
  unfold sweepCycle
  split
  · exact sweepKeys_timeout _ st
  · rfl

theorem sweepCycles_succ (n : Nat) (st : MemoryStore) :
    sweepCycles (n + 1) st = sweepCycle (sweepCycles n st) := by
  induction n generalizing st with
  | zero => rfl
  | succ m ih =>
    show sweepCycles (m + 1) (sweepCycle st) = _
    rw [ih (sweepCycle st)]
    rfl

/-- A disabled sweeper (negative timeout) never runs: the interval is not
installed, so any number of cycles is the identity. -/
theorem sweepCycles_disabled (st : MemoryStore) (h : st.timeout < 0) (n : Nat) :
    sweepCycles n st = st := by
  induction n with
  | zero => rfl
  | succ m ih =>
    rw [sweepCycles_succ, ih]
    unfold sweepCycle
    rw [if_neg (by omega)]

/-- Countdown invariant: from a store whose key `k` is live with timer `v`,
`i ≤ v` enabled cycles leave the record intact and the timer at `v - i`. -/
theorem sweepCycles_countdown (sv : Stored) (k : String) :
    ∀ (i : Nat) (v : Int) (st : MemoryStore), 0 ≤ st.timeout →
    tget st.sessions k = some sv →
    tget st.session_timers k = some v →
    (tkeys st.session_timers).count k = 1 →
    (i : Int) ≤ v →
    tget (sweepCycles i st).sessions k = some sv ∧
    tget (sweepCycles i st).session_timers k = some (v - i) ∧
    (tkeys (sweepCycles i st).session_timers).count k = 1 ∧
    (sweepCycles i st).timeout = st.timeout := by
  intro i
  induction i with
  | zero =>
    intro v st hto hs ht hc hiv
    exact ⟨hs, by simpa using ht, hc, rfl⟩
  | succ m ih =>
    intro v st hto hs ht hc hiv
    have hvne : v ≠ 0 := by
      have : (1 : Int) ≤ v := by
        have := hiv
        push_cast at this
        omega
      omega
    obtain ⟨-, hstep⟩ := sweepCycle_effect st k v hto ht hc
    obtain ⟨e1, e2, e3⟩ := hstep hvne
    rw [hs] at e1
    have hto' : 0 ≤ (sweepCycle st).timeout := by rw [sweepCycle_timeout]; exact hto
    have hiv' : (m : Int) ≤ v - 1 := by
      push_cast at hiv ⊢
      omega
    have := ih (v - 1) (sweepCycle st) hto' e1 e2 e3 hiv'
    show tget (sweepCycles m (sweepCycle st)).sessions k = some sv ∧
         tget (sweepCycles m (sweepCycle st)).session_timers k = some (v - (m + 1 : Nat)) ∧
         (tkeys (sweepCycles m (sweepCycle st)).session_timers).count k = 1 ∧
         (sweepCycles m (sweepCycle st)).timeout = st.timeout
    refine ⟨this.1, ?_, this.2.2.1, ?_⟩
    · rw [this.2.1]
      congr 1
      push_cast
      ring
    · rw [this.2.2.2, sweepCycle_timeout]

/-! ## Further helpers -/


theorem leNow_of_time (ev : ExpVal) (t now : Nat) (h : ev.time = some t) :
    ev.leNow now = decide (t ≤ now) := by
  cases ev with
  | num n =>
    simp only [ExpVal.time] at h
    cases h
    simp [ExpVal.leNow]
  | date o =>
    cases o with
    | none => simp [ExpVal.time] at h
    | some t0 =>
      simp only [ExpVal.time] at h
      cases h
      simp [ExpVal.leNow]
  | undef => simp [ExpVal.time] at h
  | null => simp [ExpVal.time] at h
  | objVal => simp [ExpVal.time] at h

theorem set_tget_self (st : MemoryStore) (id : String) (s : Json) :
    tget (st.set id s).sessions id = some (.json s) := by
  unfold MemoryStore.set
  by_cases h : (tget st.sessions id).isNone <;> simp [h, tget_tset]

theorem set_tget_other (st : MemoryStore) (id k : String) (s : Json) (h : k ≠ id) :
    tget (st.set id s).sessions k = tget st.sessions k := by
  unfold MemoryStore.set
  by_cases h2 : (tget st.sessions id).isNone <;> simp [h2, tget_tset, h]

theorem set_timeout (st : MemoryStore) (id : String) (s : Json) :
    (st.set id s).timeout = st.timeout := by
  unfold MemoryStore.set
  by_cases h : (tget st.sessions id).isNone <;> simp [h]

theorem set_fresh_timer (st : MemoryStore) (id : String) (s : Json)
    (h : tget st.sessions id = none) :
    tget (st.set id s).session_timers id = some st.timeout := by
  unfold MemoryStore.set
  simp [h, tget_tset]

theorem set_present_timers (st : MemoryStore) (id : String) (s : Json)
    (h : (tget st.sessions id).isSome = true) :
    (st.set id s).session_timers = st.session_timers := by
  unfold MemoryStore.set
  have : ¬(tget st.sessions id).isNone = true := by
    cases hs : tget st.sessions id
    · rw [hs] at h
      simp at h
    · simp
  simp [this]

theorem set_fresh_timer_count (st : MemoryStore) (id : String) (s : Json)
    (hs : tget st.sessions id = none) (ht : tget st.session_timers id = none) :
    (tkeys (st.set id s).session_timers).count id = 1 := by
  unfold MemoryStore.set
  rw [hs]
  show (tkeys (tset st.session_timers id st.timeout)).count id = 1
  rw [tkeys_tset_absent st.session_timers id st.timeout ht]
  rw [List.count_append]
  rw [count_tkeys_eq_zero_of_tget_none st.session_timers id ht]
  simp

/-- Reading `cookie.expires` of a structured record's JSON value. -/
theorem readExpires_toJson (r : SessionRecord) :
    readExpires r.toJson = .ok (match r.cookie.expires with
      | some t => .date (some t)
      | none => .undef) := by
  cases hc : r.cookie.expires with
  | none =>
    simp [readExpires, SessionRecord.toJson, Cookie.toJson, jsGet, jsGetOpt,
      tget, hc, convertExpires]
  | some t =>
    simp [readExpires, SessionRecord.toJson, Cookie.toJson, jsGet, jsGetOpt,
      tget, hc, convertExpires]

theorem dataFromJson_map (d : List (String × String)) :
    dataFromJson (d.map fun p => (p.1, .str p.2)) = some d := by
  induction d with
  | nil => rfl
  | cons p rest ih =>
    obtain ⟨k, v⟩ := p
    simp [dataFromJson, ih]

/-- The codec round trip on structured records is lossless. -/
theorem fromJson_toJson (r : SessionRecord) :
    SessionRecord.fromJson r.toJson = some r := by
  obtain ⟨⟨e⟩, d⟩ := r
  cases e with
  | none =>
    simp [SessionRecord.toJson, SessionRecord.fromJson, Cookie.toJson,
      Cookie.fromJson, dataFromJson_map]
  | some t =>
    simp [SessionRecord.toJson, SessionRecord.fromJson, Cookie.toJson,
      Cookie.fromJson, dataFromJson_map]

/-- Unfolding equation for `allGo` on a nonempty key list. -/
theorem allGo_cons (now : Nat) (k : String) (rest : List String) (st : MemoryStore) :
    allGo now (k :: rest) st =
      match getSession st k now with
      | (.error e, st') => (.error e, st')
      | (.ok none, st') => allGo now rest st'
      | (.ok (some sess), st') =>
        match allGo now rest st' with
        | (.error e, st'') => (.error e, st'')
        | (.ok sessions, st'') => (.ok ((k, sess) :: sessions), st'') := rfl

theorem allGo_cons_err (now : Nat) (k : String) (rest : List String)
    (st st1 : MemoryStore) (e : JsError)
    (h : getSession st k now = (.error e, st1)) :
    allGo now (k :: rest) st = (.error e, st1) := by
  rw [allGo_cons, h]

theorem allGo_cons_none (now : Nat) (k : String) (rest : List String)
    (st st1 : MemoryStore) (h : getSession st k now = (.ok none, st1)) :
    allGo now (k :: rest) st = allGo now rest st1 := by
  rw [allGo_cons, h]

theorem allGo_cons_some (now : Nat) (k : String) (rest : List String)
    (st st1 : MemoryStore) (sess : Json)
    (h : getSession st k now = (.ok (some sess), st1)) :
    allGo now (k :: rest) st =
      match allGo now rest st1 with
      | (.error e, st2) => (.error e, st2)
      | (.ok sessions, st2) => (.ok ((k, sess) :: sessions), st2) := by
  rw [allGo_cons, h]

/-- An id absent from both tables stays absent through an `all` enumeration
and never appears in its result. -/
theorem allGo_absent (now : Nat) (ks : List String) (st : MemoryStore)
    (id : String) (hs : tget st.sessions id = none)
    (ht : tget st.session_timers id = none) :
    tget (allGo now ks st).2.sessions id = none ∧
    tget (allGo now ks st).2.session_timers id = none ∧
    ∀ m, (allGo now ks st).1 = .ok m → tget m id = none := by
  induction ks generalizing st with
  | nil =>
    refine ⟨hs, ht, ?_⟩
    intro m hm
    simp only [allGo] at hm
    cases hm
    rfl
  | cons k rest ih =>
    by_cases hk : k = id
    · subst hk
      rw [allGo_cons_none now k rest st st (getSession_absent st k now hs)]
      exact ih st hs ht
    · have hid : id ≠ k := fun hh => hk hh.symm
      have hpres := getSession_other st k id now hid
      cases hg : getSession st k now with
      | mk r st1 =>
        rw [hg] at hpres
        cases r with
        | error e =>
          rw [allGo_cons_err now k rest st st1 e hg]
          exact ⟨hpres.1.trans hs, hpres.2.trans ht, fun m hm => by cases hm⟩
        | ok o =>
          cases o with
          | none =>
            rw [allGo_cons_none now k rest st st1 hg]
            exact ih st1 (hpres.1.trans hs) (hpres.2.trans ht)
          | some sess1 =>
            rw [allGo_cons_some now k rest st st1 sess1 hg]
            have hrec := ih st1 (hpres.1.trans hs) (hpres.2.trans ht)
            cases hrec2 : allGo now rest st1 with
            | mk r2 st2 =>
              rw [hrec2] at hrec
              cases r2 with
              | error e =>
                exact ⟨hrec.1, hrec.2.1, fun m hm => by cases hm⟩
              | ok sessions =>
                refine ⟨hrec.1, hrec.2.1, ?_⟩
                intro m hm
                have hm' : (k, sess1) :: sessions = m := by
                  cases hm
                  rfl
                subst hm'
                have hk' : ¬k = id := hk
                simpa [tget, hk'] using hrec.2.2 sessions rfl

/-- An expired record at `id` is evicted by a successful `all` enumeration
and never appears in its result. -/
theorem allGo_expired (now : Nat) (ks : List String) (st : MemoryStore)
    (id : String) (sess : Json) (ev : ExpVal)
    (hs : tget st.sessions id = some (.json sess))
    (hx : readExpires sess = .ok ev)
    (hc : (ev.truthy && ev.leNow now) = true)
    (hm : id ∈ ks) :
    ∀ m st', allGo now ks st = (.ok m, st') →
      tget m id = none ∧ tget st'.sessions id = none ∧
      tget st'.session_timers id = none := by
  induction ks generalizing st with
  | nil => cases hm
  | cons k rest ih =>
    intro m st' hall
    by_cases hk : k = id
    · subst hk
      rw [allGo_cons_none now k rest st (st.destroy k)
        (getSession_expired st k now sess ev hs hx hc)] at hall
      have hdel1 : tget (st.destroy k).sessions k = none := by
        simp [MemoryStore.destroy, tget_tdel]
      have hdel2 : tget (st.destroy k).session_timers k = none := by
        simp [MemoryStore.destroy, tget_tdel]
      have habs := allGo_absent now rest (st.destroy k) k hdel1 hdel2
      rw [hall] at habs
      exact ⟨habs.2.2 m rfl, habs.1, habs.2.1⟩
    · have hm' : id ∈ rest := by
        cases hm with
        | head => exact absurd rfl hk
        | tail _ h => exact h
      have hid : id ≠ k := fun hh => hk hh.symm
      have hpres := getSession_other st k id now hid
      cases hg : getSession st k now with
      | mk r st1 =>
        rw [hg] at hpres
        cases r with
        | error e =>
          rw [allGo_cons_err now k rest st st1 e hg] at hall
          cases hall
        | ok o =>
          cases o with
          | none =>
            rw [allGo_cons_none now k rest st st1 hg] at hall
            exact ih st1 (hpres.1.trans hs) hm' m st' hall
          | some sess1 =>
            rw [allGo_cons_some now k rest st st1 sess1 hg] at hall
            cases hrec2 : allGo now rest st1 with
            | mk r2 st2 =>
              rw [hrec2] at hall
              cases r2 with
              | error e => cases hall
              | ok sessions =>
                have hms : (Except.ok ((k, sess1) :: sessions) :
                      Except JsError (List (String × Json))) = .ok m ∧ st2 = st' := by
                  cases hall
                  exact ⟨rfl, rfl⟩
                obtain ⟨hm2, hst2⟩ := hms
                have hm3 : (k, sess1) :: sessions = m := by
                  cases hm2
                  rfl
                subst hm3
                subst hst2
                have := ih st1 (hpres.1.trans hs) hm' sessions st2 hrec2
                have hk' : ¬k = id := hk
                exact ⟨by simpa [tget, hk'] using this.1, this.2.1, this.2.2⟩


theorem getSession_raises (st : MemoryStore) (id : String) (now : Nat)
    (s : Stored) (hs : tget st.sessions id = some s) (hb : storedRaises s) :
    ∃ e, (getSession st id now).1 = .error e := by
  rcases hb with ⟨str, rfl⟩ | ⟨j, e, rfl, hx⟩
  · exact ⟨.syntaxError, by rw [getSession_malformed st id now str hs]⟩
  · exact ⟨e, by rw [getSession_readErr st id now j e hs hx]⟩

theorem allGo_raises (now : Nat) (ks : List String) (st : MemoryStore)
    (id : String) (s : Stored) (hs : tget st.sessions id = some s)
    (hb : storedRaises s) (hm : id ∈ ks) :
    ∃ e, (allGo now ks st).1 = .error e := by
  induction ks generalizing st with
  | nil => cases hm
  | cons k rest ih =>
    by_cases hk : k = id
    · subst hk
      obtain ⟨e, he⟩ := getSession_raises st k now s hs hb
      cases hg : getSession st k now with
      | mk r st1 =>
        rw [hg] at he
        cases r with
        | error e2 =>
          rw [allGo_cons_err now k rest st st1 e2 hg]
          exact ⟨e2, rfl⟩
        | ok o => simp at he
    · have hm' : id ∈ rest := by
        cases hm with
        | head => exact absurd rfl hk
        | tail _ h => exact h
      have hid : id ≠ k := fun hh => hk hh.symm
      have hpres := getSession_other st k id now hid
      cases hg : getSession st k now with
      | mk r st1 =>
        rw [hg] at hpres
        cases r with
        | error e =>
          rw [allGo_cons_err now k rest st st1 e hg]
          exact ⟨e, rfl⟩
        | ok o =>
          cases o with
          | none =>
            rw [allGo_cons_none now k rest st st1 hg]
            exact ih st1 (hpres.1.trans hs) hm'
          | some sess1 =>
            rw [allGo_cons_some now k rest st st1 sess1 hg]
            obtain ⟨e, he⟩ := ih st1 (hpres.1.trans hs) hm'
            cases hrec2 : allGo now rest st1 with
            | mk r2 st2 =>
              rw [hrec2] at he
              cases r2 with
              | error e2 => exact ⟨e2, rfl⟩
              | ok sessions => simp at he

theorem tdel_tdel_self {α : Type} (t : List (String × α)) (k : String) :
    tdel (tdel t k) k = tdel t k :=
  tdel_eq_of_tget_none (tdel t k) k (by rw [tget_tdel]; simp)

theorem touch_err (st : MemoryStore) (id : String) (s2 : Json) (now : Nat)
    (e : JsError) (st' : MemoryStore)
    (hg : getSession st id now = (.error e, st')) :
    st.touch id s2 now = (.error e, st') := by
  unfold MemoryStore.touch
  rw [hg]

theorem touch_not_found (st : MemoryStore) (id : String) (s2 : Json) (now : Nat)
    (st' : MemoryStore) (hg : getSession st id now = (.ok none, st')) :
    st.touch id s2 now = (.ok (), st') := by
  unfold MemoryStore.touch
  rw [hg]

theorem touch_found (st : MemoryStore) (id : String) (s2 : Json) (now : Nat)
    (currentSession : Json) (st' : MemoryStore) (cookieVal : Option Json)
    (hg : getSession st id now = (.ok (some currentSession), st'))
    (hc : jsGet s2 "cookie" = .ok cookieVal) :
    st.touch id s2 now = (.ok (), { st' with
      sessions := tset st'.sessions id
        (.json (objAssign currentSession "cookie" cookieVal)) }) := by
  unfold MemoryStore.touch
  rw [hg, hc]

theorem jsGet_toJson_cookie (r : SessionRecord) :
    jsGet r.toJson "cookie" = .ok (some r.cookie.toJson) := by
  simp [SessionRecord.toJson, jsGet, tget]

theorem objAssign_toJson_cookie (r : SessionRecord) (cj : Json) :
    objAssign r.toJson "cookie" (some cj) =
      .obj (("cookie", cj) :: r.data.map (fun p => (p.1, .str p.2))) := by
  simp [SessionRecord.toJson, objAssign, tset]

/-- A structured record whose expiry (if any) is still in the future is
returned live by `getSession`, with only its timer reset. -/
theorem getSession_live_toJson (st : MemoryStore) (id : String) (now : Nat)
    (r : SessionRecord) (hs : tget st.sessions id = some (.json r.toJson))
    (hexp : ∀ t, r.cookie.expires = some t → now < t) :
    getSession st id now = (.ok (some r.toJson),
      { st with session_timers := tset st.session_timers id st.timeout }) := by
  cases hc : r.cookie.expires with
  | none =>
    have hx := readExpires_toJson r
    rw [hc] at hx
    exact getSession_live st id now r.toJson .undef hs hx rfl
  | some t =>
    have hx := readExpires_toJson r
    rw [hc] at hx
    have hlt := hexp t hc
    refine getSession_live st id now r.toJson (.date (some t)) hs hx ?_
    simp [ExpVal.truthy, ExpVal.leNow]
    omega

/-! ## Claim theorems -/

/-- C1: for every session id whose stored record has a `cookie.expires`
timestamp in the past, `get(id)` completes with not-found, never hands the
record to the caller, and removes the id from both the Record Table and the
Timer Table; a successful `all()` likewise omits the id from its result and
removes it from both tables; and the same holds for a `get` immediately
following the `set` that stored the past timestamp. -/
theorem expired_session_never_returned (st : MemoryStore) (id : String)
    (now : Nat) :
    (∀ sess ev t, tget st.sessions id = some (.json sess) →
      readExpires sess = .ok ev → ev.truthy = true → ev.time = some t →
      t < now →
      (st.get id now).1 = .ok none ∧
      tget (st.get id now).2.sessions id = none ∧
      tget (st.get id now).2.session_timers id = none ∧
      ∀ m st', st.all now = (.ok m, st') →
        tget m id = none ∧ tget st'.sessions id = none ∧
        tget st'.session_timers id = none) ∧
    (∀ (r : SessionRecord) (t : Nat), r.cookie.expires = some t → t < now →
      ((st.set id r.toJson).get id now).1 = .ok none ∧
      tget ((st.set id r.toJson).get id now).2.sessions id = none ∧
      tget ((st.set id r.toJson).get id now).2.session_timers id = none) := by
  constructor
  · intro sess ev t hs hx htr htime hlt
    have hle : ev.leNow now = true := by
      rw [leNow_of_time ev t now htime]
      simp
      omega
    have hcond : (ev.truthy && ev.leNow now) = true := by rw [htr, hle]; rfl
    have hg : st.get id now = (.ok none, st.destroy id) :=
      getSession_expired st id now sess ev hs hx hcond
    refine ⟨?_, ?_, ?_, ?_⟩
    · rw [hg]
    · rw [hg]
      simp [MemoryStore.destroy, tget_tdel]
    · rw [hg]
      simp [MemoryStore.destroy, tget_tdel]
    · intro m st' hall
      exact allGo_expired now (tkeys st.sessions) st id sess ev hs hx hcond
        (tget_mem_tkeys st.sessions id _ hs) m st' hall
  · intro r t hc hlt
    have hs := set_tget_self st id r.toJson
    have hx := readExpires_toJson r
    rw [hc] at hx
    have hcond : ((ExpVal.date (some t)).truthy &&
        (ExpVal.date (some t)).leNow now) = true := by
      simp [ExpVal.truthy, ExpVal.leNow]
      omega
    have hg : (st.set id r.toJson).get id now =
        (.ok none, (st.set id r.toJson).destroy id) :=
      getSession_expired (st.set id r.toJson) id now r.toJson
        (.date (some t)) hs hx hcond
    refine ⟨?_, ?_, ?_⟩
    · rw [hg]
    · rw [hg]
      simp [MemoryStore.destroy, tget_tdel]
    · rw [hg]
      simp [MemoryStore.destroy, tget_tdel]

/-- C2: with `timeoutTicks = N ≥ 0`, a key that is set once and never read or
set again survives each of the first `N` sweep cycles (its countdown standing
at `N - i` after `i` cycles) and is evicted from both tables by exactly the
`(N+1)`-th cycle; with `N = 0` the very first cycle evicts it. -/
theorem sweep_evicts_unread_key_after_timeout_cycles
    (st : MemoryStore) (k : String) (s : Json) (N : Nat)
    (hto : st.timeout = (N : Int))
    (hs : tget st.sessions k = none)
    (ht : tget st.session_timers k = none) :
    (∀ i, i ≤ N →
      tget (sweepCycles i (st.set k s)).sessions k = some (.json s) ∧
      tget (sweepCycles i (st.set k s)).session_timers k =
        some ((N : Int) - i)) ∧
    tget (sweepCycles (N + 1) (st.set k s)).sessions k = none ∧
    tget (sweepCycles (N + 1) (st.set k s)).session_timers k = none := by
  have hset_s : tget (st.set k s).sessions k = some (.json s) :=
    set_tget_self st k s
  have hset_t : tget (st.set k s).session_timers k = some (N : Int) := by
    rw [set_fresh_timer st k s hs, hto]
  have hset_c : (tkeys (st.set k s).session_timers).count k = 1 :=
    set_fresh_timer_count st k s hs ht
  have hset_to : (st.set k s).timeout = (N : Int) := by
    rw [set_timeout, hto]
  have hmain : ∀ i, i ≤ N →
      tget (sweepCycles i (st.set k s)).sessions k = some (.json s) ∧
      tget (sweepCycles i (st.set k s)).session_timers k =
        some ((N : Int) - i) ∧
      (tkeys (sweepCycles i (st.set k s)).session_timers).count k = 1 ∧
      (sweepCycles i (st.set k s)).timeout = (N : Int) := by
    intro i hi
    have := sweepCycles_countdown (.json s) k i (N : Int) (st.set k s)
      (by rw [hset_to]; omega) hset_s hset_t hset_c (by omega)
    exact ⟨this.1, this.2.1, this.2.2.1, by rw [this.2.2.2, hset_to]⟩
  have hev : tget (sweepCycles (N + 1) (st.set k s)).sessions k = none ∧
      tget (sweepCycles (N + 1) (st.set k s)).session_timers k = none := by
    obtain ⟨m1, m2, m3, m4⟩ := hmain N le_rfl
    have hzero : tget (sweepCycles N (st.set k s)).session_timers k =
        some 0 := by
      rw [m2]
      norm_num
    rw [sweepCycles_succ]
    obtain ⟨hz, -⟩ := sweepCycle_effect (sweepCycles N (st.set k s)) k 0
      (by rw [m4]; omega) hzero m3
    exact hz rfl
  exact ⟨fun i hi => ⟨(hmain i hi).1, (hmain i hi).2.1⟩, hev.1, hev.2⟩

/-- C3 counterexample: with `timeoutTicks = 1`, set `"a"`, run one sweep
cycle (its countdown drops to 0), then `set` `"a"` again: the timer stays at
0 instead of being reset to the configured countdown 1 — `set` on an
already-present key does not reset the TimerValue, contradicting the claim. -/
theorem set_on_present_key_does_not_reset_timer_cex :
    tget ((sweepCycle ((MemoryStore.init (some 1)).set "a"
        (Json.obj [("cookie", Json.obj [])]))).set "a"
        (Json.obj [("cookie", Json.obj [])])).session_timers "a" = some 0 ∧
    ((sweepCycle ((MemoryStore.init (some 1)).set "a"
        (Json.obj [("cookie", Json.obj [])]))).set "a"
        (Json.obj [("cookie", Json.obj [])])).timeout = 1 ∧
    tget ((sweepCycle ((MemoryStore.init (some 1)).set "a"
        (Json.obj [("cookie", Json.obj [])]))).set "a"
        (Json.obj [("cookie", Json.obj [])])).session_timers "a" ≠
      some ((sweepCycle ((MemoryStore.init (some 1)).set "a"
        (Json.obj [("cookie", Json.obj [])]))).set "a"
        (Json.obj [("cookie", Json.obj [])])).timeout := by
  refine ⟨rfl, rfl, ?_⟩
  decide

/-- C3 (amended): a key's TimerValue is reset to the configured countdown
when the key is first created by `set` and when a read's lazy-expiration
check succeeds (`getSession`, the read path shared by `get`, `all` and
`touch`); a `set` on an already-present key leaves the Timer Table
unchanged. -/
theorem timer_reset_on_create_and_read_only (st : MemoryStore) (id : String)
    (s : Json) (now : Nat) :
    (tget st.sessions id = none →
      tget (st.set id s).session_timers id = some st.timeout) ∧
    (∀ sess st', getSession st id now = (.ok (some sess), st') →
      tget st'.session_timers id = some st.timeout) ∧
    ((tget st.sessions id).isSome = true →
      (st.set id s).session_timers = st.session_timers) := by
  refine ⟨set_fresh_timer st id s, ?_, set_present_timers st id s⟩
  intro sess st' h
  obtain ⟨-, h2⟩ := getSession_ok_some_inv st id now sess st' h
  rw [h2]
  simp [tget_tset]

/-- C4: starting from a freshly constructed store, after any sequence of
store operations (`set`, `get`, `touch`, `destroy`, `all`, `clear`, `length`
and sweep cycles) the Record Table and the Timer Table hold exactly the same
set of keys. -/
theorem record_and_timer_tables_lockstep (options_timeout : Option Int)
    (ops : List Op) :
    KeysEq (applyOps (MemoryStore.init options_timeout) ops) :=
  keysEq_applyOps _ ops (keysEq_init options_timeout)

/-- C5: for a structured record whose expiry (if present) is still in the
future, `get` after `set` returns the very session value that was stored,
and that value decodes back to the record field for field — the
encode-then-decode round trip through the codec is lossless. -/
theorem set_get_roundtrip_lossless (st : MemoryStore) (id : String)
    (now : Nat) (r : SessionRecord)
    (hexp : ∀ t, r.cookie.expires = some t → now < t) :
    ((st.set id r.toJson).get id now).1 = .ok (some r.toJson) ∧
    SessionRecord.fromJson r.toJson = some r := by
  refine ⟨?_, fromJson_toJson r⟩
  have hg : (st.set id r.toJson).get id now = (.ok (some r.toJson),
      { st.set id r.toJson with
        session_timers :=
          tset (st.set id r.toJson).session_timers id
            (st.set id r.toJson).timeout }) :=
    getSession_live_toJson (st.set id r.toJson) id now r
      (set_tget_self st id r.toJson) hexp
  rw [hg]

/-- C6: `touch(id, r2)` on an id holding a live structured record `r1`
succeeds and re-stores a record equal to `r1` in every field except
`cookie`, which becomes `r2.cookie`; and when the expiration-aware lookup
finds nothing, `touch` changes nothing beyond that lookup and creates no
record at the id. -/
theorem touch_replaces_cookie_only_and_never_creates (st : MemoryStore)
    (id : String) (now : Nat) :
    (∀ (r1 r2 : SessionRecord),
      tget st.sessions id = some (.json r1.toJson) →
      (∀ t, r1.cookie.expires = some t → now < t) →
      (st.touch id r2.toJson now).1 = .ok () ∧
      tget (st.touch id r2.toJson now).2.sessions id =
        some (.json (SessionRecord.toJson
          { cookie := r2.cookie, data := r1.data }))) ∧
    (∀ s2 : Json, (getSession st id now).1 = .ok none →
      st.touch id s2 now = (.ok (), (getSession st id now).2) ∧
      tget (st.touch id s2 now).2.sessions id = none) := by
  constructor
  · intro r1 r2 hs hexp
    have hg := getSession_live_toJson st id now r1 hs hexp
    have ht := touch_found st id r2.toJson now r1.toJson
      { st with session_timers := tset st.session_timers id st.timeout }
      (some r2.cookie.toJson) hg (jsGet_toJson_cookie r2)
    rw [ht]
    refine ⟨rfl, ?_⟩
    rw [objAssign_toJson_cookie r1 r2.cookie.toJson]
    simp only [tget_tset, if_pos rfl]
    rfl
  · intro s2 hnone
    cases hq : getSession st id now with
    | mk r st' =>
      rw [hq] at hnone
      have hr : r = .ok none := hnone
      subst hr
      have hinv := getSession_ok_none_inv st id now st' hq
      rw [touch_not_found st id s2 now st' hq]
      exact ⟨rfl, hinv.1⟩

/-- C7: `destroy` is idempotent and total: destroying twice yields the same
state as destroying once, and destroying an id absent from both tables is a
silent no-op. -/
theorem destroy_idempotent_total (st : MemoryStore) (id : String) :
    (st.destroy id).destroy id = st.destroy id ∧
    (tget st.sessions id = none → tget st.session_timers id = none →
      st.destroy id = st) := by
  constructor
  · unfold MemoryStore.destroy
    simp [tdel_tdel_self]
  · intro h1 h2
    unfold MemoryStore.destroy
    rw [tdel_eq_of_tget_none st.sessions id h1,
        tdel_eq_of_tget_none st.session_timers id h2]

/-- C8: with a negative `timeoutTicks` the sweeper is never installed, so
sweep cycles change nothing at all: a key that is set and never read is
still present (with its stored value) after arbitrarily many cycles. -/
theorem disabled_sweep_never_evicts (st : MemoryStore) (k : String)
    (s : Json) (n : Nat) (h : st.timeout < 0) :
    sweepCycles n (st.set k s) = st.set k s ∧
    tget (sweepCycles n (st.set k s)).sessions k = some (.json s) := by
  have hid : sweepCycles n (st.set k s) = st.set k s :=
    sweepCycles_disabled (st.set k s) (by rw [set_timeout]; exact h) n
  exact ⟨hid, by rw [hid]; exact set_tget_self st k s⟩

/-- C9: a stored entry whose serialized form `JSON.parse` rejects, or whose
decoded record has no readable `cookie` (so `sess.cookie.expires` throws),
makes the shared read path raise an uncontrolled error instead of completing
with not-found: `get`, `touch`, `all` and `length` all propagate a JS
exception. -/
theorem read_path_raises_on_cookieless_record (st : MemoryStore)
    (id : String) (now : Nat) (s2 : Json) (s : Stored)
    (hs : tget st.sessions id = some s) (hb : storedRaises s) :
    (∃ e, (st.get id now).1 = .error e) ∧
    (∃ e, (st.touch id s2 now).1 = .error e) ∧
    (∃ e, (st.all now).1 = .error e) ∧
    (∃ e, (st.length now).1 = .error e) := by
  obtain ⟨e, he⟩ := getSession_raises st id now s hs hb
  have hallE : ∃ e2, (st.all now).1 = .error e2 :=
    allGo_raises now (tkeys st.sessions) st id s hs hb
      (tget_mem_tkeys st.sessions id s hs)
  refine ⟨⟨e, he⟩, ?_, hallE, ?_⟩
  · cases hq : getSession st id now with
    | mk r st' =>
      rw [hq] at he
      cases r with
      | error e2 =>
        rw [touch_err st id s2 now e2 st' hq]
        exact ⟨e2, rfl⟩
      | ok o => simp at he
  · obtain ⟨e2, he2⟩ := hallE
    unfold MemoryStore.length
    cases ha : st.all now with
    | mk r st' =>
      rw [ha] at he2
      cases r with
      | error e3 => exact ⟨e3, rfl⟩
      | ok sessions => simp at he2

/-- C10: the lazy-expiration boundary is inclusive — a record whose truthy
`cookie.expires` equals the current time exactly is evicted from both tables
and not returned — while a falsy `cookie.expires` (absent, `null`, or the
number 0) never lazily expires: the record is returned and the Record Table
is untouched. -/
theorem lazy_expiry_boundary_inclusive_and_falsy_never_expires
    (st : MemoryStore) (id : String) (now : Nat) (sess : Json) (ev : ExpVal)
    (hs : tget st.sessions id = some (.json sess))
    (hx : readExpires sess = .ok ev) :
    (ev.truthy = true → ev.time = some now →
      (st.get id now).1 = .ok none ∧
      tget (st.get id now).2.sessions id = none ∧
      tget (st.get id now).2.session_timers id = none) ∧
    (ev.truthy = false →
      (st.get id now).1 = .ok (some sess) ∧
      (st.get id now).2.sessions = st.sessions) := by
  constructor
  · intro htr htime
    have hle : ev.leNow now = true := by
      rw [leNow_of_time ev now now htime]
      simp
    have hcond : (ev.truthy && ev.leNow now) = true := by rw [htr, hle]; rfl
    have hg : st.get id now = (.ok none, st.destroy id) :=
      getSession_expired st id now sess ev hs hx hcond
    refine ⟨by rw [hg], ?_, ?_⟩
    · rw [hg]
      simp [MemoryStore.destroy, tget_tdel]
    · rw [hg]
      simp [MemoryStore.destroy, tget_tdel]
  · intro htr
    have hcond : (ev.truthy && ev.leNow now) = false := by rw [htr]; rfl
    have hg : st.get id now = (.ok (some sess),
        { st with session_timers := tset st.session_timers id st.timeout }) :=
      getSession_live st id now sess ev hs hx hcond
    exact ⟨by rw [hg], by rw [hg]⟩

/-! ## Concrete witnesses -/

theorem expired_session_never_returned_witness :
    ((wStore.get "sid" 2000).1 = .ok none ∧
     tget (wStore.get "sid" 2000).2.sessions "sid" = none ∧
     tget (wStore.get "sid" 2000).2.session_timers "sid" = none) ∧
    (((wStore.set "sid" wRec.toJson).get "sid" 2000).1 = .ok none ∧
     tget ((wStore.set "sid" wRec.toJson).get "sid" 2000).2.sessions "sid" = none ∧
     tget ((wStore.set "sid" wRec.toJson).get "sid" 2000).2.session_timers "sid" =
       none) := by
  have h1 := (expired_session_never_returned wStore "sid" 2000).1 wRec.toJson
    (.date (some 1000)) 1000 rfl rfl rfl rfl (by omega)
  have h2 := (expired_session_never_returned wStore "sid" 2000).2 wRec 1000 rfl
    (by omega)
  exact ⟨⟨h1.1, h1.2.1, h1.2.2.1⟩, h2⟩

theorem sweep_evicts_unread_key_after_timeout_cycles_witness :
    tget (sweepCycles 1 ((MemoryStore.init (some 1)).set "a"
      wLive.toJson)).sessions "a" = some (.json wLive.toJson) ∧
    tget (sweepCycles 2 ((MemoryStore.init (some 1)).set "a"
      wLive.toJson)).sessions "a" = none ∧
    tget (sweepCycles 2 ((MemoryStore.init (some 1)).set "a"
      wLive.toJson)).session_timers "a" = none := by
  have h := sweep_evicts_unread_key_after_timeout_cycles
    (MemoryStore.init (some 1)) "a" wLive.toJson 1 rfl rfl rfl
  exact ⟨(h.1 1 le_rfl).1, h.2.1, h.2.2⟩

theorem timer_reset_on_create_and_read_only_witness :
    tget ((MemoryStore.init (some 3)).set "a" wLive.toJson).session_timers "a" =
      some (MemoryStore.init (some 3)).timeout ∧
    tget (({ wLiveStore with
        session_timers := tset wLiveStore.session_timers "a" wLiveStore.timeout } :
          MemoryStore).session_timers) "a" =
      some wLiveStore.timeout ∧
    (wLiveStore.set "a" wLive.toJson).session_timers =
      wLiveStore.session_timers := by
  have h1 := (timer_reset_on_create_and_read_only (MemoryStore.init (some 3))
    "a" wLive.toJson 10).1 rfl
  have h2 := (timer_reset_on_create_and_read_only wLiveStore "a" wLive.toJson
    10).2.1 wLive.toJson
    ({ wLiveStore with
        session_timers := tset wLiveStore.session_timers "a" wLiveStore.timeout } :
          MemoryStore) rfl
  have h3 := (timer_reset_on_create_and_read_only wLiveStore "a" wLive.toJson
    10).2.2 rfl
  exact ⟨h1, h2, h3⟩

theorem set_get_roundtrip_lossless_witness :
    (((MemoryStore.init (some 2)).set "a" wFut.toJson).get "a" 100).1 =
      .ok (some wFut.toJson) ∧
    SessionRecord.fromJson wFut.toJson = some wFut :=
  set_get_roundtrip_lossless (MemoryStore.init (some 2)) "a" 100 wFut
    (by intro t ht; simp [wFut] at ht; omega)

theorem touch_replaces_cookie_only_and_never_creates_witness :
    ((wFutStore.touch "a" wLive.toJson 100).1 = .ok () ∧
     tget (wFutStore.touch "a" wLive.toJson 100).2.sessions "a" =
       some (.json (SessionRecord.toJson
         { cookie := wLive.cookie, data := wFut.data }))) ∧
    (wFutStore.touch "zz" wLive.toJson 100 =
      (.ok (), (getSession wFutStore "zz" 100).2) ∧
     tget (wFutStore.touch "zz" wLive.toJson 100).2.sessions "zz" = none) := by
  have h1 := (touch_replaces_cookie_only_and_never_creates wFutStore "a"
    100).1 wFut wLive rfl (by intro t ht; simp [wFut] at ht; omega)
  have h2 := (touch_replaces_cookie_only_and_never_creates wFutStore "zz"
    100).2 wLive.toJson rfl
  exact ⟨h1, h2⟩

theorem destroy_idempotent_total_witness :
    ((MemoryStore.init none).destroy "a").destroy "a" =
      (MemoryStore.init none).destroy "a" ∧
    (MemoryStore.init none).destroy "a" = MemoryStore.init none := by
  have h := destroy_idempotent_total (MemoryStore.init none) "a"
  exact ⟨h.1, h.2 rfl rfl⟩

theorem disabled_sweep_never_evicts_witness :
    tget (sweepCycles 100 ((MemoryStore.init none).set "a"
      wLive.toJson)).sessions "a" = some (.json wLive.toJson) :=
  (disabled_sweep_never_evicts (MemoryStore.init none) "a" wLive.toJson 100
    (by decide)).2

theorem read_path_raises_on_cookieless_record_witness :
    (∃ e, (wBadStore.get "bad" 5).1 = .error e) ∧
    (∃ e, (wBadStore.touch "bad" (Json.obj []) 5).1 = .error e) ∧
    (∃ e, (wBadStore.all 5).1 = .error e) ∧
    (∃ e, (wBadStore.length 5).1 = .error e) :=
  read_path_raises_on_cookieless_record wBadStore "bad" 5 (Json.obj [])
    (.json (Json.obj [("user", Json.str "u")])) rfl
    (Or.inr ⟨Json.obj [("user", Json.str "u")], .typeError, rfl, rfl⟩)

theorem lazy_expiry_boundary_inclusive_and_falsy_never_expires_witness :
    ((wStore.get "sid" 1000).1 = .ok none ∧
     tget (wStore.get "sid" 1000).2.sessions "sid" = none ∧
     tget (wStore.get "sid" 1000).2.session_timers "sid" = none) ∧
    ((wLiveStore.get "a" 999999).1 = .ok (some wLive.toJson) ∧
     (wLiveStore.get "a" 999999).2.sessions = wLiveStore.sessions) := by
  have h1 := (lazy_expiry_boundary_inclusive_and_falsy_never_expires wStore
    "sid" 1000 wRec.toJson (.date (some 1000)) rfl rfl).1 rfl rfl
  have h2 := (lazy_expiry_boundary_inclusive_and_falsy_never_expires
    wLiveStore "a" 999999 wLive.toJson .undef rfl rfl).2 rfl
  exact ⟨⟨h1.1, h1.2.1, h1.2.2⟩, h2⟩

end Spotispy
